import Mathlib

/-!
# socrates-cli: the command tree and the version command

A shallow embedding of `src/cmd/version.go` and `src/cmd/root.go`.

* Go strings are Lean `String`s.
* The process state the two files can observe is a `World`: the three
  package-level variables of `version.go` and the text written so far to
  standard output.
* `fmt.Printf` is embedded for the fragment of format strings the source uses
  (literal text, `%%` and `%s` with one string operand each).
-/

namespace Socrates

/-! ## Process state -/

/-- Process state: the package variables `Version`, `Commit`, `BuildDate`
(version.go, lines 10-14) and the text written so far to standard output. -/
structure World where
  Version : String
  Commit : String
  BuildDate : String
  stdout : String

/-- State at process start when the three variables keep their initialisers
(`"dev"`, `"none"`, `"unknown"`) and nothing has been written yet. -/
def World.initial : World :=
  { Version := "dev", Commit := "none", BuildDate := "unknown", stdout := "" }

/-- State at process start when the linker has overridden the three variables. -/
def World.built (version commit buildDate : String) : World :=
  { Version := version, Commit := commit, BuildDate := buildDate, stdout := "" }

/-! ## fmt.Printf -/

/-- Expansion of a format (as a character list) against string operands, for the
fragment `literal text | %% | %s`: `%s` is replaced by the next operand
unchanged, `%%` by a percent sign, anything else is copied. The result is
`none` outside the fragment: another verb, a `%` that ends the format, a `%s`
with no operand left, or operands left over at the end. -/
def sprintfAux : List Char → List String → Option (List Char)
  | [], [] => some []
  | [], _ :: _ => none
  | '%' :: '%' :: rest, args => (sprintfAux rest args).map fun out => '%' :: out
  | '%' :: 's' :: rest, a :: args => (sprintfAux rest args).map fun out => a.toList ++ out
  | '%' :: _, _ => none
  | c :: rest, args => (sprintfAux rest args).map fun out => c :: out

/-- Model of `fmt.Sprintf(format, args...)` with string operands. -/
def Sprintf (format : String) (args : List String) : Option String :=
  (sprintfAux format.toList args).map String.mk

/-- Model of `fmt.Printf(format, args...)`: the expansion is appended to standard output and
nothing else changes. -/
def Printf (format : String) (args : List String) (w : World) : Option World :=
  (Sprintf format args).map fun text => { w with stdout := w.stdout ++ text }

/-! ## Commands -/

/-- What a handler sees of the `*cobra.Command` it is called with: the
descriptive fields of that command. -/
structure CmdInfo where
  Use : String
  Short : String
  Long : String

/-- Type of a `Run` function, `func(cmd *cobra.Command, args []string)`, as a
transformer of the process state. `none` is reserved for effects outside the
embedding. -/
abbrev Handler := CmdInfo → List String → World → Option World

/-- The fields of `cobra.Command` the source sets: `Use`, `Short`, `Long`, `Run`
and the registered children. A nil `Run` is `none`. -/
inductive Command where
  | mk (Use Short Long : String) (Run : Option Handler) (commands : List Command)

namespace Command

def Use : Command → String
  | mk u _ _ _ _ => u

def Short : Command → String
  | mk _ s _ _ _ => s

def Long : Command → String
  | mk _ _ l _ _ => l

def Run : Command → Option Handler
  | mk _ _ _ r _ => r

def commands : Command → List Command
  | mk _ _ _ _ cs => cs

def info (c : Command) : CmdInfo :=
  { Use := c.Use, Short := c.Short, Long := c.Long }

/-- Model of `(*Command).Name`: the `Use` line up to its first space. -/
def Name (c : Command) : String :=
  String.mk (c.Use.toList.takeWhile fun ch => ch != ' ')

/-- Model of `(*Command).AddCommand` with one argument: the child is appended to the
list of registered commands. -/
def AddCommand (c child : Command) : Command :=
  mk c.Use c.Short c.Long c.Run (c.commands ++ [child])

end Command

/-! ## version.go -/

/-- The `Run` closure of `newVersionCmd` (version.go, lines 20-24): three
`fmt.Printf` calls, each reading one package variable. -/
def versionRun : Handler := fun _cmd _args w => do
  let w ← Printf "socrates %s\n" [w.Version] w
  let w ← Printf "  commit: %s\n" [w.Commit] w
  Printf "  built:  %s\n" [w.BuildDate] w

/-- Embedding of `newVersionCmd` (version.go, lines 16-26). -/
def newVersionCmd : Command :=
  Command.mk "version" "Print version information" "" (some versionRun) []

/-! ## root.go -/

/-- The `Long` text of the root command (root.go, lines 12-18). -/
def rootLong : String :=
  "Socrates is an AI-powered coding assistant that helps you write,\n" ++
  "understand, and improve your code through conversation.\n" ++
  "\n" ++
  "It supports multiple phases of development:\n" ++
  "  - Socrates: Clarify requirements through dialogue\n" ++
  "  - Planner: Design implementation strategy\n" ++
  "  - Executor: Write and modify code"

/-- Embedding of `newRootCmd` (root.go, lines 8-24): the struct literal, then
`cmd.AddCommand(newVersionCmd())`. -/
def newRootCmd : Command :=
  (Command.mk "socrates" "An AI-powered coding assistant CLI" rootLong none []).AddCommand
    newVersionCmd

/-! ## The command framework

`Execute` (root.go, line 28) hands the tree to `(*cobra.Command).Execute` of
github.com/spf13/cobra, which parses flags with github.com/spf13/pflag. Both
are outside `src/`. The spec leaves dispatch to "standard behavior of the
underlying command framework"; the definitions of this section model that
behaviour for trees built from the fields of `Command` above (no aliases, no
user-declared flags, no hooks, no argument validators, default settings).
Text written to standard error is not part of `World`. -/

/-- Model of `strings.HasPrefix`. -/
def HasPrefix (s pre : String) : Bool :=
  pre.toList.isPrefixOf s.toList

/-- Substring test on character lists. -/
def hasInfix (sub : List Char) : List Char → Bool
  | [] => sub.isEmpty
  | c :: cs => sub.isPrefixOf (c :: cs) || hasInfix sub cs

/-- Model of `strings.Contains`. -/
def Contains (s sub : String) : Bool :=
  hasInfix sub.toList s.toList

/-- Modelled from the spec: the test `stripFlags` and `argsMinusFirstX` of the
framework share, for a command none of whose flags is declared yet (the help
flag is declared only when a command is executed): the argument is a flag
whose value is the next argument, that is, `--name` without `=`, or a dash and
one more byte. -/
def takesNextArg (s : String) : Bool :=
  (HasPrefix s "--" && !Contains s "=") ||
    (HasPrefix s "-" && !Contains s "=" && s.utf8ByteSize == 2)

/-- Modelled from the spec: `stripFlags` of the framework, the arguments that
are not flags or flag values, up to a `--`. -/
def stripFlags : List String → List String
  | [] => []
  | s :: rest =>
    if s = "--" then []
    else if takesNextArg s then
      match rest with
      | [] => []
      | [_] => []
      | _ :: more => stripFlags more
    else if s ≠ "" && !HasPrefix s "-" then s :: stripFlags rest
    else stripFlags rest

/-- Modelled from the spec: `argsMinusFirstX` of the framework, the arguments
without the first occurrence of `x` that is not a flag or a flag value. -/
def argsMinusFirstX : List String → String → List String
  | [], _ => []
  | s :: rest, x =>
    if s = "--" then s :: rest
    else if takesNextArg s then
      match rest with
      | [] => [s]
      | value :: more => s :: value :: argsMinusFirstX more x
    else if !HasPrefix s "-" then
      if s = x then rest else s :: argsMinusFirstX rest x
    else s :: argsMinusFirstX rest x

/-- Modelled from the spec: names under which the framework registers commands of
its own on a root that has subcommands, before it dispatches: `help`,
`completion`, and the hidden completion request command with its alias. -/
def frameworkCommands : List String :=
  ["help", "completion", "__complete", "__completeNoDesc"]

/-- A command of the tree together with its ancestors, nearest first. -/
structure Located where
  cmd : Command
  parents : List Command

/-- Modelled from the spec: `(*Command).CommandPath`, the names from the root
down to the command, separated by spaces. -/
def Located.CommandPath (l : Located) : String :=
  " ".intercalate ((l.parents.reverse ++ [l.cmd]).map Command.Name)

/-- Errors the framework returns from `Execute`. -/
inductive ExecError where
  | unknownCommand (arg path : String)
  | flagError (arg : String)
  deriving DecidableEq, Repr

/-- What the framework's command lookup ends in. -/
inductive FindResult where
  | found (l : Located) (args : List String)
  | framework (name : String) (args : List String)

mutual

/-- Modelled from the spec: the recursive `innerfind` of `(*Command).Find`: follow
the first argument that is not a flag while it names a child (the root also
looks among the framework's own commands, registered after the tree's). -/
def innerfind (parents : List Command) : Command → List String → FindResult
  | Command.mk u s l r cs, innerArgs =>
    match stripFlags innerArgs with
    | [] => FindResult.found ⟨Command.mk u s l r cs, parents⟩ innerArgs
    | next :: _ =>
      match findNext (Command.mk u s l r cs :: parents) cs next innerArgs with
      | some res => res
      | none =>
        if parents.isEmpty && frameworkCommands.contains next then
          FindResult.framework next (argsMinusFirstX innerArgs next)
        else FindResult.found ⟨Command.mk u s l r cs, parents⟩ innerArgs

/-- Modelled from the spec: `(*Command).findNext` followed by the descent into
the child found: the first registered child whose name is `next`. -/
def findNext (parents : List Command) : List Command → String → List String →
    Option FindResult
  | [], _, _ => none
  | c :: cs, next, innerArgs =>
    if c.Name = next then some (innerfind parents c (argsMinusFirstX innerArgs next))
    else findNext parents cs next innerArgs

end

/-- Modelled from the spec: `(*Command).Find` with `legacyArgsValidation`: a root
that has subcommands rejects a leftover argument that is not a flag as an unknown
command. A command without subcommands takes any arguments. -/
def Find (root : Command) (args : List String) : Except ExecError FindResult :=
  match innerfind [] root args with
  | FindResult.framework name a => Except.ok (FindResult.framework name a)
  | FindResult.found l a =>
    if l.cmd.commands.isEmpty then Except.ok (FindResult.found l a)
    else
      match l.parents, stripFlags a with
      | [], arg :: _ => Except.error (ExecError.unknownCommand arg l.CommandPath)
      | _, _ => Except.ok (FindResult.found l a)

/-! ### Flag parsing

When a command is executed the framework declares its help flag (`--help`,
shorthand `-h`, a boolean whose value is `true` when none is given) and parses
the arguments left by the lookup. No other flag exists in these trees. -/

/-- Model of `strconv.ParseBool`. -/
def ParseBool (s : String) : Option Bool :=
  if ["1", "t", "T", "TRUE", "true", "True"].contains s then some true
  else if ["0", "f", "F", "FALSE", "false", "False"].contains s then some false
  else none

/-- Modelled from the spec: the flag library's handling of `--name` and
`--name=value` (the two dashes removed) when `help` is the only flag: the new
value of the help flag, or `none` for an error (bad syntax, unknown flag, a
value that is no boolean). -/
def parseLongArg (name : List Char) : Option Bool :=
  match name with
  | '-' :: _ => none
  | '=' :: _ => none
  | _ =>
    if String.mk (name.takeWhile fun ch => ch != '=') ≠ "help" then none
    else
      match name.dropWhile fun ch => ch != '=' with
      | [] => some true
      | _ :: value => ParseBool (String.mk value)

/-- Modelled from the spec: the flag library's handling of a series of
shorthand letters (the dash removed) when `h` is the only shorthand: the new
value of the help flag, or `none` for an error. A series that starts with
`test.` is skipped. -/
def parseShortArg : List Char → Bool → Option Bool
  | [], help => some help
  | c :: rest, help =>
    if "test.".toList.isPrefixOf (c :: rest) then some help
    else if c ≠ 'h' then none
    else
      match rest with
      | '=' :: v :: vs => ParseBool (String.mk (v :: vs))
      | _ => parseShortArg rest true

/-- Modelled from the spec: the flag library's `parseArgs` with flags and
positional arguments interspersed: the final value of the help flag and the
positional arguments, or the argument at which parsing failed. -/
def parseArgs : List String → Bool → List String → Except ExecError (Bool × List String)
  | [], help, positional => Except.ok (help, positional)
  | s :: rest, help, positional =>
    match s.toList with
    | ['-', '-'] => Except.ok (help, positional ++ rest)
    | '-' :: '-' :: name =>
      match parseLongArg name with
      | none => Except.error (ExecError.flagError s)
      | some h => parseArgs rest h positional
    | '-' :: c :: cs =>
      match parseShortArg (c :: cs) help with
      | none => Except.error (ExecError.flagError s)
      | some h => parseArgs rest h positional
    | _ => parseArgs rest help (positional ++ [s])

/-! ### Help text -/

/-- Model of `unicode.IsSpace`. -/
def isSpace (c : Char) : Bool :=
  let n := c.toNat
  n == 0x20 || (0x09 ≤ n && n ≤ 0x0D) || n == 0x85 || n == 0xA0 || n == 0x1680 ||
    (0x2000 ≤ n && n ≤ 0x200A) || n == 0x2028 || n == 0x2029 || n == 0x202F ||
    n == 0x205F || n == 0x3000

/-- Modelled from the spec: the framework's `trimTrailingWhitespaces`. -/
def trimTrailingWhitespaces (s : String) : String :=
  String.mk (s.toList.reverse.dropWhile isSpace).reverse

/-- Modelled from the spec: the framework's `rpad`, padding with spaces on the
right to a width counted in characters. -/
def rpad (s : String) (padding : Nat) : String :=
  s ++ String.mk (List.replicate (padding - s.length) ' ')

namespace Command

/-- Model of `(*Command).Runnable`. -/
def Runnable (c : Command) : Bool :=
  c.Run.isSome

mutual

/-- Modelled from the spec: `(*Command).IsAvailableCommand` for a command of the
tree: it can run or has a subcommand that is available. -/
def IsAvailableCommand : Command → Bool
  | mk _ _ _ r cs => r.isSome || anyAvailable cs

/-- Some command of the list is available. -/
def anyAvailable : List Command → Bool
  | [] => false
  | c :: cs => IsAvailableCommand c || anyAvailable cs

end

mutual

/-- Modelled from the spec: `(*Command).IsAdditionalHelpTopicCommand`: the
command cannot run and neither can anything below it. -/
def IsAdditionalHelpTopicCommand : Command → Bool
  | mk _ _ _ r cs => !r.isSome && allHelpTopics cs

/-- Every command of the list is an additional help topic. -/
def allHelpTopics : List Command → Bool
  | [] => true
  | c :: cs => IsAdditionalHelpTopicCommand c && allHelpTopics cs

end

end Command

/-- A line of a command listing: what the usage text needs of a child. -/
structure Entry where
  name : String
  path : String
  short : String
  available : Bool
  helpTopic : Bool

/-- Modelled from the spec: the children the usage text of a command sees: the
registered ones and, on a root that has subcommands, the framework's `help`
and `completion` commands. -/
def Located.entries (l : Located) : List Entry :=
  (l.cmd.commands.map fun c =>
    { name := c.Name, path := l.CommandPath ++ " " ++ c.Name, short := c.Short,
      available := c.IsAvailableCommand, helpTopic := c.IsAdditionalHelpTopicCommand }) ++
  (if l.parents.isEmpty && !l.cmd.commands.isEmpty then
    [{ name := "help", path := l.CommandPath ++ " help", short := "Help about any command",
       available := false, helpTopic := false },
     { name := "completion", path := l.CommandPath ++ " completion",
       short := "Generate the autocompletion script for the specified shell",
       available := true, helpTopic := false }]
  else [])

/-- Lexicographic order of strings, as Go's `<` on strings. -/
def lessChars : List Char → List Char → Bool
  | _, [] => false
  | [], _ :: _ => true
  | a :: as, b :: bs => decide (a.toNat < b.toNat) || (a.toNat == b.toNat && lessChars as bs)

/-- Insertion into a listing ordered by name. -/
def insertEntry (e : Entry) : List Entry → List Entry
  | [] => [e]
  | x :: xs =>
    if lessChars e.name.toList x.name.toList then e :: x :: xs else x :: insertEntry e xs

/-- Modelled from the spec: the order `(*Command).Commands` lists children in,
by name. -/
def sortEntries : List Entry → List Entry
  | [] => []
  | e :: es => insertEntry e (sortEntries es)

/-- Width of a column: the widest item when it reaches the framework's minimum of 11,
the minimum otherwise. -/
def padding (widths : List Nat) : Nat :=
  let widest := widths.foldl max 0
  if 11 > widest then 11 else widest

/-- Modelled from the spec: `(*Command).UseLine`: the parent's path, the `Use`
line, and `[flags]` unless the line has it already. -/
def Located.UseLine (l : Located) : String :=
  let useline :=
    match l.parents with
    | [] => l.cmd.Use
    | p :: ps => Located.CommandPath ⟨p, ps⟩ ++ " " ++ l.cmd.Use
  if Contains useline "[flags]" then useline else useline ++ " [flags]"

/-- Modelled from the spec: the framework's default usage template, for a command
whose only flag is the help flag. -/
def Located.UsageString (l : Located) : String :=
  let entries := sortEntries l.entries
  let hasAvailable := entries.any fun e => e.available
  let namePadding := padding (entries.map fun e => e.name.utf8ByteSize)
  let pathPadding := padding (entries.map fun e => e.path.utf8ByteSize)
  let name := if l.cmd.Name = "" then "this command" else l.cmd.Name
  "Usage:" ++
  (if l.cmd.Runnable then "\n  " ++ l.UseLine else "") ++
  (if hasAvailable then "\n  " ++ l.CommandPath ++ " [command]" else "") ++
  (if hasAvailable then
    "\n\nAvailable Commands:" ++
      String.join ((entries.filter fun e => e.available || e.name == "help").map fun e =>
        "\n  " ++ rpad e.name namePadding ++ " " ++ e.short)
  else "") ++
  "\n\nFlags:\n" ++ trimTrailingWhitespaces ("  -h, --help   help for " ++ name ++ "\n") ++
  (if entries.any fun e => e.helpTopic then
    "\n\nAdditional help topics:" ++
      String.join ((entries.filter fun e => e.helpTopic).map fun e =>
        "\n  " ++ rpad e.path pathPadding ++ " " ++ e.short)
  else "") ++
  (if hasAvailable then
    "\n\nUse \"" ++ l.CommandPath ++ " [command] --help\" for more information about a command."
  else "") ++
  "\n"

/-- Modelled from the spec: the framework's default help template: the long
description (the short one when there is none), a blank line, and the usage
text when the command can run or has subcommands. -/
def Located.helpText (l : Located) : String :=
  let description := if l.cmd.Long ≠ "" then l.cmd.Long else l.cmd.Short
  (if description ≠ "" then trimTrailingWhitespaces description ++ "\n\n" else "") ++
  (if l.cmd.Runnable || !l.entries.isEmpty then l.UsageString else "")

/-! ### Execution -/

/-- Modelled from the spec: `(*Command).execute` on the command the lookup found:
a flag error is returned; a help request, or a command without `Run`, prints the
help text on standard output and returns no error; otherwise `Run` is called
with the positional arguments and no error is returned. -/
def execute (l : Located) (a : List String) (w : World) : Option (World × Option ExecError) :=
  match parseArgs a false [] with
  | Except.error e => some (w, some e)
  | Except.ok (help, positional) =>
    match help, l.cmd.Run with
    | false, some run => (run l.cmd.info positional w).map fun w' => (w', none)
    | _, _ => some ({ w with stdout := w.stdout ++ l.helpText }, none)

/-- Modelled from the spec: `(*Command).Execute` on a root that has
subcommands, given `os.Args[1:]`: the final state and the error returned
(`none` for nil). The result is `none` where the embedding does not follow the
framework: a root without subcommands, and dispatch to one of the framework's
own commands. -/
def Command.Execute (root : Command) (args : List String) (w : World) :
    Option (World × Option ExecError) :=
  if root.commands.isEmpty then none
  else
    match Find root args with
    | Except.error e => some (w, some e)
    | Except.ok (FindResult.framework _ _) => none
    | Except.ok (FindResult.found l flags) => execute l flags w

/-- Embedding of `Execute` (root.go, lines 27-29), with the program's arguments
made explicit. -/
def Execute (args : List String) (w : World) : Option (World × Option ExecError) :=
  newRootCmd.Execute args w

/-! ## Observations used in the statements -/

/-- Text a run of the version handler writes when standard output starts empty
and the package variables hold the given triple. -/
def versionOutput (version commit buildDate : String) (cmd : CmdInfo) (args : List String) :
    Option String :=
  (versionRun cmd args (World.built version commit buildDate)).map fun w => w.stdout

/-- Number of newline characters in a text. -/
def newlineCount (s : String) : Nat :=
  s.toList.count '\n'

/-- The text contains no newline character. -/
def NoNewline (s : String) : Prop :=
  '\n' ∉ s.toList

instance (s : String) : Decidable (NoNewline s) :=
  inferInstanceAs (Decidable ('\n' ∉ s.toList))

/-- Being exactly three lines of the version template: three newline
characters in all, the last one ending the text, and the three lines they
end start with `socrates `, `  commit: ` and `  built:  `. -/
def ThreeTemplateLines (out : String) : Prop :=
  newlineCount out = 3 ∧
  ∃ l1 l2 l3 : String,
    out = l1 ++ "\n" ++ l2 ++ "\n" ++ l3 ++ "\n" ∧
    "socrates ".toList <+: l1.toList ∧
    "  commit: ".toList <+: l2.toList ∧
    "  built:  ".toList <+: l3.toList

/-- The help text of the root command as the framework's default templates
render it for the tree of `newRootCmd`. -/
def rootHelp : String :=
  "Socrates is an AI-powered coding assistant that helps you write,\n" ++
  "understand, and improve your code through conversation.\n" ++
  "\n" ++
  "It supports multiple phases of development:\n" ++
  "  - Socrates: Clarify requirements through dialogue\n" ++
  "  - Planner: Design implementation strategy\n" ++
  "  - Executor: Write and modify code\n" ++
  "\n" ++
  "Usage:\n" ++
  "  socrates [command]\n" ++
  "\n" ++
  "Available Commands:\n" ++
  "  completion  Generate the autocompletion script for the specified shell\n" ++
  "  help        Help about any command\n" ++
  "  version     Print version information\n" ++
  "\n" ++
  "Flags:\n" ++
  "  -h, --help   help for socrates\n" ++
  "\n" ++
  "Use \"socrates [command] --help\" for more information about a command.\n"

/-! ## Lemmas -/


theorem sprintf_socrates (v : String) :
    Sprintf "socrates %s\n" [v] = some ("socrates " ++ v ++ "\n") := rfl

theorem sprintf_commit (v : String) :
    Sprintf "  commit: %s\n" [v] = some ("  commit: " ++ v ++ "\n") := rfl

theorem sprintf_built (v : String) :
    Sprintf "  built:  %s\n" [v] = some ("  built:  " ++ v ++ "\n") := rfl

/-- The version handler, unfolded: it succeeds and appends the three
expansions, in order, to standard output. -/
theorem versionRun_eq (cmd : CmdInfo) (args : List String) (w : World) :
    versionRun cmd args w =
      some { w with
        stdout := w.stdout ++
          ("socrates " ++ w.Version ++ "\n" ++ "  commit: " ++ w.Commit ++ "\n" ++
            "  built:  " ++ w.BuildDate ++ "\n") } := by
  simp only [versionRun, Printf, sprintf_socrates, sprintf_commit, sprintf_built, Option.map_some',
    Option.bind_eq_bind, Option.some_bind, String.append_assoc]

theorem toList_append (a b : String) : (a ++ b).toList = a.toList ++ b.toList := by
  cases a; cases b; rfl

theorem newlineCount_append (a b : String) :
    newlineCount (a ++ b) = newlineCount a + newlineCount b := by
  simp [newlineCount, toList_append]

theorem newlineCount_of_noNewline {s : String} (h : NoNewline s) : newlineCount s = 0 := by
  simpa [newlineCount, NoNewline, List.count_eq_zero] using h

/-- The template text for a metadata triple. -/
theorem versionOutput_eq (version commit buildDate : String) (cmd : CmdInfo)
    (args : List String) :
    versionOutput version commit buildDate cmd args =
      some ("socrates " ++ version ++ "\n" ++ "  commit: " ++ commit ++ "\n" ++
        "  built:  " ++ buildDate ++ "\n") := by
  simp only [versionOutput, versionRun_eq, World.built, Option.map_some']
  rfl

/-! ### Lookup and dispatch on the tree of `newRootCmd` -/

theorem hasPrefix_dashes_of_not_dash {s : String} (h : HasPrefix s "-" = false) :
    HasPrefix s "--" = false := by
  unfold HasPrefix at *
  rcases hs : s.toList with _ | ⟨c, cs⟩
  · rfl
  · rw [hs] at h
    have h1 : "-".toList = ['-'] := rfl
    have h2 : "--".toList = ['-', '-'] := rfl
    rw [h1] at h
    rw [h2]
    simp [List.isPrefixOf] at h ⊢
    intro hc
    exact absurd hc h

theorem takesNextArg_of_not_dash {s : String} (h : HasPrefix s "-" = false) :
    takesNextArg s = false := by
  simp [takesNextArg, h, hasPrefix_dashes_of_not_dash h]

theorem ne_dashes_of_not_dash {s : String} (h : HasPrefix s "-" = false) : s ≠ "--" := by
  rintro rfl
  revert h
  decide

/-- An argument that is not empty and does not start with a dash is kept by
`stripFlags`, whatever follows it. -/
theorem stripFlags_cons_plain {s : String} (rest : List String) (hne : s ≠ "")
    (h : HasPrefix s "-" = false) : stripFlags (s :: rest) = s :: stripFlags rest := by
  rw [stripFlags.eq_def]
  simp [ne_dashes_of_not_dash h, takesNextArg_of_not_dash h, hne, h]

theorem newRootCmd_eq :
    newRootCmd =
      Command.mk "socrates" "An AI-powered coding assistant CLI" rootLong none [newVersionCmd] :=
  rfl

/-- Lookup fails with an unknown-command error on a first argument that is plain
and names neither `version` nor a command of the framework. -/
theorem find_unknown {s : String} (rest : List String) (hne : s ≠ "")
    (h : HasPrefix s "-" = false) (hv : s ≠ "version") (hf : s ∉ frameworkCommands) :
    Find newRootCmd (s :: rest) = Except.error (ExecError.unknownCommand s "socrates") := by
  have hname : newVersionCmd.Name = "version" := by decide
  have hin : innerfind [] newRootCmd (s :: rest) =
      FindResult.found ⟨newRootCmd, []⟩ (s :: rest) := by
    rw [newRootCmd_eq, innerfind, stripFlags_cons_plain rest hne h]
    simp [findNext, hname, Ne.symm hv, hf]
  rw [Find, hin]
  simp only [stripFlags_cons_plain rest hne h]
  rfl

set_option maxRecDepth 100000 in
theorem helpText_root : Located.helpText ⟨newRootCmd, []⟩ = rootHelp := by
  rfl

theorem execute_version (w : World) :
    Execute ["version"] w = (versionRun newVersionCmd.info [] w).map fun w' => (w', none) :=
  rfl

theorem execute_noargs (w : World) :
    Execute [] w =
      some ({ w with stdout := w.stdout ++ Located.helpText ⟨newRootCmd, []⟩ }, none) :=
  rfl

theorem execute_help_flag (w : World) :
    Execute ["--help"] w =
      some ({ w with stdout := w.stdout ++ Located.helpText ⟨newRootCmd, []⟩ }, none) :=
  rfl

/-! ## The version command -/

/-- C1: for every metadata triple (and whatever was written before, whatever
command value and arguments the handler receives) the version handler
succeeds and the text it appends to standard output is exactly
`socrates <Version>\n  commit: <Commit>\n  built:  <BuildDate>\n`. -/
theorem C1_version_text_exact (version commit buildDate before : String) (cmd : CmdInfo)
    (args : List String) :
    versionRun cmd args
        { Version := version, Commit := commit, BuildDate := buildDate, stdout := before } =
      some
        { Version := version, Commit := commit, BuildDate := buildDate,
          stdout := before ++
            ("socrates " ++ version ++ "\n" ++ "  commit: " ++ commit ++ "\n" ++
              "  built:  " ++ buildDate ++ "\n") } := by
  rw [versionRun_eq]

/-- C2: with the initialisers of the three package variables untouched, the
version handler writes literally `socrates dev\n  commit: none\n  built:  unknown\n`. -/
theorem C2_default_metadata_output (cmd : CmdInfo) (args : List String) :
    versionRun cmd args World.initial =
      some { World.initial with stdout := "socrates dev\n  commit: none\n  built:  unknown\n" } := by
  rw [versionRun_eq]
  rfl

/-- C3, as stated, fails: when the version string holds a newline the output
has four newline characters, so it is not three template lines. -/
theorem C3_counterexample_newline_in_version :
    ¬ ∃ out, versionOutput "1.0\nrc1" "none" "unknown" newVersionCmd.info [] = some out ∧
        ThreeTemplateLines out := by
  rintro ⟨out, hout, hcount, -⟩
  rw [versionOutput_eq] at hout
  cases hout
  revert hcount
  decide

/-- C3, amended: when none of the three metadata strings contains a newline,
the version handler's output is exactly three template lines, for every
command value and argument list. -/
theorem C3_three_lines_when_no_newline (version commit buildDate : String) (cmd : CmdInfo)
    (args : List String) (hv : NoNewline version) (hc : NoNewline commit)
    (hd : NoNewline buildDate) :
    ∃ out, versionOutput version commit buildDate cmd args = some out ∧
      ThreeTemplateLines out := by
  refine ⟨_, versionOutput_eq version commit buildDate cmd args, ?_, ?_⟩
  · simp only [newlineCount_append, newlineCount_of_noNewline hv,
      newlineCount_of_noNewline hc, newlineCount_of_noNewline hd]
    rfl
  · refine ⟨"socrates " ++ version, "  commit: " ++ commit, "  built:  " ++ buildDate, ?_,
      ?_, ?_, ?_⟩
    · simp only [String.append_assoc]
    · exact ⟨version.toList, (toList_append _ _).symm⟩
    · exact ⟨commit.toList, (toList_append _ _).symm⟩
    · exact ⟨buildDate.toList, (toList_append _ _).symm⟩

theorem C3_three_lines_witness :
    ∃ out, versionOutput "dev" "none" "unknown" newVersionCmd.info ["x"] = some out ∧
      ThreeTemplateLines out :=
  C3_three_lines_when_no_newline "dev" "none" "unknown" newVersionCmd.info ["x"]
    (by decide) (by decide) (by decide)

/-- C4: the text the version handler writes depends on the metadata triple
only. Two runs with the same triple write the same text, whatever was on
standard output before and whatever command value and arguments each run
receives. -/
theorem C4_output_depends_on_metadata_only (version commit buildDate before1 before2 : String)
    (cmd1 cmd2 : CmdInfo) (args1 args2 : List String) :
    ∃ text,
      versionRun cmd1 args1
          { Version := version, Commit := commit, BuildDate := buildDate, stdout := before1 } =
        some { Version := version, Commit := commit, BuildDate := buildDate,
               stdout := before1 ++ text } ∧
      versionRun cmd2 args2
          { Version := version, Commit := commit, BuildDate := buildDate, stdout := before2 } =
        some { Version := version, Commit := commit, BuildDate := buildDate,
               stdout := before2 ++ text } :=
  ⟨_, versionRun_eq _ _ _, versionRun_eq _ _ _⟩

/-! ## Dispatch -/

/-- C5: for every metadata triple, `Execute` on the argument list `["version"]`
runs the version handler, which cannot fail: the template text is appended to
standard output, the metadata is unchanged, and the error returned is nil. -/
theorem C5_version_dispatch_no_error (version commit buildDate before : String) :
    Execute ["version"]
        { Version := version, Commit := commit, BuildDate := buildDate, stdout := before } =
      some
        ({ Version := version, Commit := commit, BuildDate := buildDate,
           stdout := before ++
             ("socrates " ++ version ++ "\n" ++ "  commit: " ++ commit ++ "\n" ++
               "  built:  " ++ buildDate ++ "\n") }, none) := by
  rw [execute_version, versionRun_eq]
  rfl

set_option maxRecDepth 100000 in
/-- C6: `Execute` on the empty argument list returns a nil error and appends
to standard output a help text that is not empty and contains `socrates`. -/
theorem C6_no_args_prints_help (w : World) :
    ∃ text, Execute [] w = some ({ w with stdout := w.stdout ++ text }, none) ∧ text ≠ "" ∧
      ∃ before after, text = before ++ "socrates" ++ after := by
  refine ⟨rootHelp, ?_, by decide, ?_⟩
  · rw [execute_noargs, helpText_root]
  · refine ⟨"Socrates is an AI-powered coding assistant that helps you write,\n" ++
      "understand, and improve your code through conversation.\n" ++
      "\n" ++
      "It supports multiple phases of development:\n" ++
      "  - Socrates: Clarify requirements through dialogue\n" ++
      "  - Planner: Design implementation strategy\n" ++
      "  - Executor: Write and modify code\n" ++
      "\n" ++
      "Usage:\n" ++
      "  ", " [command]\n" ++
      "\n" ++
      "Available Commands:\n" ++
      "  completion  Generate the autocompletion script for the specified shell\n" ++
      "  help        Help about any command\n" ++
      "  version     Print version information\n" ++
      "\n" ++
      "Flags:\n" ++
      "  -h, --help   help for socrates\n" ++
      "\n" ++
      "Use \"socrates [command] --help\" for more information about a command.\n", ?_⟩
    rfl

/-- C7, as stated, fails: `--help` is not the name of a registered subcommand,
yet `Execute` on `["--help"]` prints the help text and returns a nil error. -/
theorem C7_counterexample_help_flag :
    "--help" ∉ newRootCmd.commands.map Command.Name ∧
      Execute ["--help"] World.initial =
        some ({ World.initial with stdout := rootHelp }, none) := by
  refine ⟨by decide, ?_⟩
  rw [execute_help_flag, helpText_root]
  rfl

/-- C7, amended: when the first argument is not empty, does not start with a
dash, and names neither a registered subcommand nor one of the framework's own
commands, `Execute` returns an unknown-command error and leaves the state as it
was: no handler runs and nothing is written to standard output. -/
theorem C7_unknown_command_rejected (s : String) (rest : List String) (w : World)
    (hne : s ≠ "") (hdash : HasPrefix s "-" = false)
    (hreg : s ∉ newRootCmd.commands.map Command.Name) (hfw : s ∉ frameworkCommands) :
    Execute (s :: rest) w = some (w, some (ExecError.unknownCommand s "socrates")) := by
  have hv : s ≠ "version" := by
    intro hs
    apply hreg
    rw [hs]
    decide
  have hfind := find_unknown rest hne hdash hv hfw
  simp only [Execute, Command.Execute, hfind]
  rfl

theorem C7_unknown_command_witness :
    Execute ["badcommand"] World.initial =
      some (World.initial, some (ExecError.unknownCommand "badcommand" "socrates")) :=
  C7_unknown_command_rejected "badcommand" [] World.initial (by decide) (by decide) (by decide)
    (by decide)

/-! ## The command tree -/

/-- C8: the command `newRootCmd` builds is named `socrates`, has no handler of
its own, and has exactly one registered child, named `version`, whose handler
is the version handler. -/
theorem C8_root_tree_shape :
    newRootCmd.Name = "socrates" ∧ newRootCmd.Run = none ∧
      ∃ child, newRootCmd.commands = [child] ∧ child.Name = "version" ∧
        child.Run = some versionRun :=
  ⟨by decide, rfl, newVersionCmd, rfl, by decide, rfl⟩

/-- C9: the tree `newRootCmd` builds holds no handler at the root, and every
handler registered in it, run on any state with any command value and
arguments, succeeds, leaves `Version`, `Commit` and `BuildDate` as they were
and only appends text to standard output. -/
theorem C9_metadata_unchanged (w : World) (cmd : CmdInfo) (args : List String) :
    newRootCmd.Run = none ∧
      ∀ c ∈ newRootCmd.commands, ∀ h, c.Run = some h →
        ∃ w', h cmd args w = some w' ∧ w'.Version = w.Version ∧ w'.Commit = w.Commit ∧
          w'.BuildDate = w.BuildDate ∧ ∃ text, w'.stdout = w.stdout ++ text := by
  refine ⟨rfl, ?_⟩
  intro c hc h hh
  have hc' : c = newVersionCmd := by
    simpa [newRootCmd, Command.AddCommand, Command.commands] using hc
  subst hc'
  have hh' : h = versionRun := by
    simpa [newVersionCmd, Command.Run] using hh.symm
  subst hh'
  exact ⟨_, versionRun_eq cmd args w, rfl, rfl, rfl, _, rfl⟩

end Socrates
